import Mathlib

/-
Verification development for the agent-chime notification pipeline.

Shallow embedding of the core components (model registry, model selector,
system detector, audio cache, synthesis provider, renderer volume handling,
text limiting, and the notify orchestration) translated from the Python
sources under src/agent_chime/.  External effects (subprocess probes, the
synthesis engine, the filesystem) are passed in as explicit oracle
parameters; machine floats for memory sizes are modelled as rationals.
-/

set_option autoImplicit false

namespace AgentChime

/-! ## Model registry (src/agent_chime/tts/models.py) -/

/-- Model quality/resource tiers (`ModelTier` in tts/models.py). -/
inductive ModelTier where
  | voiceDesign
  | spark
  | sparkQuantized
  | pocket
deriving DecidableEq

/-- Specification for a TTS model (`ModelSpec` in tts/models.py).
Float fields (`estimated_memory_gb`, `realtime_factor`) are rationals. -/
structure ModelSpec where
  model_id : String
  estimated_memory_gb : ℚ
  realtime_factor : ℚ
  default_voice : String
  requires_metal : Bool
  description : String
  lang_code : String
  supports_instruct : Bool
  default_instruct : String
deriving DecidableEq

/-- The model registry `MODELS`, a dict keyed by tier (tts/models.py). -/
def MODELS : ModelTier → ModelSpec
  | .voiceDesign =>
    { model_id := "mlx-community/Qwen3-TTS-12Hz-1.7B-VoiceDesign-bf16"
      estimated_memory_gb := 7
      realtime_factor := 4/5          -- 0.8
      default_voice := ""
      requires_metal := true
      description := "Highest quality with emotion/style control via natural language"
      lang_code := "en"
      supports_instruct := true
      default_instruct := "A calm, professional voice with clear enunciation" }
  | .spark =>
    { model_id := "mlx-community/Spark-TTS-0.5B-bf16"
      estimated_memory_gb := 3
      realtime_factor := 3/10         -- 0.3
      default_voice := ""
      requires_metal := true
      description := "Best quality, requires ≥4GB available RAM"
      lang_code := "en"
      supports_instruct := false
      default_instruct := "" }
  | .sparkQuantized =>
    { model_id := "mlx-community/Spark-TTS-0.5B-8bit"
      estimated_memory_gb := 2
      realtime_factor := 3/10         -- 0.3
      default_voice := ""
      requires_metal := true
      description := "Quantized version, smaller memory footprint"
      lang_code := "en"
      supports_instruct := false
      default_instruct := "" }
  | .pocket =>
    { model_id := "mlx-community/pocket-tts"
      estimated_memory_gb := 1
      realtime_factor := 67/50        -- 1.34
      default_voice := ""
      requires_metal := false
      description := "Fastest, smallest model (~1GB memory)"
      lang_code := "en"
      supports_instruct := false
      default_instruct := "" }

/-- `QUALITY_ORDER` in tts/models.py: tiers in descending quality. -/
def QUALITY_ORDER : List ModelTier :=
  [.voiceDesign, .spark, .sparkQuantized, .pocket]

/-- `get_model_by_id` in tts/models.py.  The Python dict iterates in
insertion order, which coincides with `QUALITY_ORDER`. -/
def get_model_by_id (mid : String) : Option (ModelTier × ModelSpec) :=
  QUALITY_ORDER.findSome? (fun t =>
    if (MODELS t).model_id = mid then some (t, MODELS t) else none)

/-- `get_fallback_model` in tts/models.py: the pocket-tts spec. -/
def get_fallback_model : ModelSpec := MODELS .pocket

/-- Index of a tier in `QUALITY_ORDER` (0 = highest quality). -/
def tierRank : ModelTier → Nat
  | .voiceDesign => 0
  | .spark => 1
  | .sparkQuantized => 2
  | .pocket => 3

/-! ## System detection (src/agent_chime/system/detector.py) -/

/-- `SystemInfo` in system/detector.py; memory sizes in GB as rationals. -/
structure SystemInfo where
  total_memory_gb : ℚ
  available_memory_gb : ℚ
  metal_available : Bool
  chip_name : Option String
deriving DecidableEq

/-- Outcome of a `subprocess.run([...], check=True)` call: successful
captured stdout, `CalledProcessError` (non-zero exit), or
`FileNotFoundError` (the executable is absent from the host). -/
inductive SubprocessResult (α : Type) where
  | ok (out : α)
  | calledProcessError
  | fileNotFound
deriving DecidableEq

/-- Python exceptions that can escape `SystemDetector.detect`. -/
inductive PyError where
  | fileNotFoundError
deriving DecidableEq

/-- Outcome of importing mlx and querying `mx.metal.is_available()`. -/
inductive MetalProbe where
  | ok (b : Bool)
  | importError
  | queryError
deriving DecidableEq

/-- `SystemDetector._get_total_memory`: runs `sysctl -n hw.memsize`,
parses an integer, divides by 1024³; `CalledProcessError` and `ValueError`
(non-integer output) fall back to the psutil total; `FileNotFoundError`
is not caught and propagates. -/
def getTotalMemory (probe : SubprocessResult String) (psutilTotal : ℚ) :
    Except PyError ℚ :=
  match probe with
  | .ok s =>
    match s.toNat? with
    | some n => .ok ((n : ℚ) / (1024 ^ 3))
    | none => .ok psutilTotal
  | .calledProcessError => .ok psutilTotal
  | .fileNotFound => .error .fileNotFoundError

/-- `SystemDetector._get_available_memory`: psutil only, never fails. -/
def getAvailableMemory (psutilAvailable : ℚ) : ℚ := psutilAvailable

/-- `SystemDetector._check_metal`: any import/query failure degrades to
`false`. -/
def checkMetal : MetalProbe → Bool
  | .ok b => b
  | .importError => false
  | .queryError => false

/-- `SystemDetector._get_chip_name`: `sysctl -n machdep.cpu.brand_string`,
falling back to `system_profiler SPHardwareDataType` (whose stdout parsing
for a "Chip" line is modelled by the oracle's `Option String` output) on
`CalledProcessError`; only `CalledProcessError` is caught, so
`FileNotFoundError` from either utility propagates. -/
def getChipName (probe1 : SubprocessResult String)
    (probe2 : SubprocessResult (Option String)) : Except PyError (Option String) :=
  match probe1 with
  | .ok s => .ok (some s.trim)
  | .calledProcessError =>
    match probe2 with
    | .ok found => .ok found
    | .calledProcessError => .ok none
    | .fileNotFound => .error .fileNotFoundError
  | .fileNotFound => .error .fileNotFoundError

/-- `SystemDetector.detect`, with all host probes passed as oracles. -/
def detect (memProbe : SubprocessResult String) (psutilTotal psutilAvailable : ℚ)
    (metal : MetalProbe) (chip1 : SubprocessResult String)
    (chip2 : SubprocessResult (Option String)) : Except PyError SystemInfo := do
  let t ← getTotalMemory memProbe psutilTotal
  let c ← getChipName chip1 chip2
  pure { total_memory_gb := t
         available_memory_gb := getAvailableMemory psutilAvailable
         metal_available := checkMetal metal
         chip_name := c }

/-! ## Model selection (src/agent_chime/system/model_selector.py) -/

/-- `MEMORY_BUFFER_GB` in system/model_selector.py. -/
def MEMORY_BUFFER_GB : ℚ := 2

/-- `SelectionMode` in system/model_selector.py. -/
inductive SelectionMode where
  | auto
  | manual
deriving DecidableEq

/-- `SelectionResult` in system/model_selector.py. -/
structure SelectionResult where
  model : ModelSpec
  tier : ModelTier
  reason : String
  system_info : SystemInfo
deriving DecidableEq

/-- `ModelSelector._can_run`. -/
def canRun (spec : ModelSpec) (si : SystemInfo) (usable : ℚ) : Bool :=
  if spec.estimated_memory_gb > usable then false
  else if spec.requires_metal && !si.metal_available then false
  else true

/-- `ModelSelector._get_selection_reason`. -/
def getSelectionReason (spec : ModelSpec) (usable : ℚ) (si : SystemInfo) : String :=
  let parts : List String :=
    (if spec.estimated_memory_gb ≤ usable * (1/2) then ["plenty of RAM"]
     else if spec.estimated_memory_gb ≤ usable * (4/5) then ["sufficient RAM"]
     else ["fits in RAM"]) ++
    (if spec.requires_metal && si.metal_available then ["Metal available"] else [])
  if parts = [] then "meets requirements" else String.intercalate ", " parts

/-- `ModelSelector._auto_select`: first tier in `QUALITY_ORDER` that can
run, else the pocket fallback. -/
def autoSelect (si : SystemInfo) (usable : ℚ) : SelectionResult :=
  match QUALITY_ORDER.find? (fun t => canRun (MODELS t) si usable) with
  | some t =>
    { model := MODELS t
      tier := t
      reason := getSelectionReason (MODELS t) usable si
      system_info := si }
  | none =>
    { model := get_fallback_model
      tier := .pocket
      reason := "fallback (resource constraints)"
      system_info := si }

/-- `ModelSelector._try_user_preference`. -/
def tryUserPreference (mid : String) (si : SystemInfo) (usable : ℚ) :
    Option SelectionResult :=
  match get_model_by_id mid with
  | none => none
  | some (tier, spec) =>
    if canRun spec si usable then
      some { model := spec, tier := tier, reason := "user preference", system_info := si }
    else none

/-- Python's binary `max`, written out so that it evaluates by reduction
(`ratMax_eq_max` identifies it with the order-theoretic `max`). -/
def ratMax (a b : ℚ) : ℚ := if a ≤ b then b else a

/-- Usable memory as computed in `ModelSelector.select`:
`max(0, available_memory_gb - MEMORY_BUFFER_GB)`. -/
def usableMemory (si : SystemInfo) : ℚ :=
  ratMax 0 (si.available_memory_gb - MEMORY_BUFFER_GB)

/-- `ModelSelector.select`, with the detected `SystemInfo` passed in
(detection itself is the oracle `detect` above).  The Python guard is
`if user_preference and mode == SelectionMode.MANUAL`, where a `None` or
empty preference string is falsy. -/
def select (si : SystemInfo) (userPreference : Option String)
    (mode : SelectionMode) : SelectionResult :=
  let usable := usableMemory si
  if (match userPreference with | some p => decide (p ≠ "") | none => false) &&
      decide (mode = SelectionMode.manual) then
    match tryUserPreference (userPreference.getD "") si usable with
    | some r => r
    | none => autoSelect si usable
  else autoSelect si usable

/-! ## Audio cache (src/agent_chime/audio/cache.py)

The in-memory index `self._index : dict[str, CacheEntry]` is modelled as an
insertion-ordered association list (Python dicts preserve insertion order;
assigning to an existing key keeps its position, a new key is appended, and
`min(...)` returns the first minimal element in iteration order).  The
backing file's contents are inlined into the entry (`data`); the two I/O
outcomes `get` observes (`path.exists()` and `read_bytes` success) and the
`write_bytes` outcome in `put` are oracle parameters.  `time.time()` values
are passed in as a `now : Nat` parameter. -/

/-- `CacheEntry` in audio/cache.py, with the backing file's bytes inlined
as `data` in place of the `path` field. -/
structure CacheEntry where
  text : String
  voice : String
  model : String
  data : List Nat
  size_bytes : Nat
  created_at : Nat
  last_accessed : Nat
deriving DecidableEq

/-- `AudioCache` state: the caps and the in-memory index.  Keys are the
digest pre-images `text|voice|model` (`_cache_key` applies SHA-256 and
truncates to 16 hex chars; the digest is modelled as an injective function,
i.e. the key is the content itself — the claims all reason "short of a hash
collision"). -/
structure AudioCache where
  max_size_bytes : Nat
  max_entries : Nat
  index : List (String × CacheEntry)
deriving DecidableEq

/-- `AudioCache._cache_key`'s digest pre-image: `f"{text}|{voice}|{model}"`. -/
def cacheKeyContent (text voice model : String) : String :=
  text ++ "|" ++ voice ++ "|" ++ model

/-- `AudioCache.__init__` with an empty starting directory:
`max_size_bytes = max_size_mb * 1024 * 1024`, empty index. -/
def AudioCache.empty (maxSizeMb maxEntries : Nat) : AudioCache :=
  { max_size_bytes := maxSizeMb * 1024 * 1024
    max_entries := maxEntries
    index := [] }

/-- Sum of the tracked `size_bytes` over an index list. -/
def entriesSize (l : List (String × CacheEntry)) : Nat :=
  (l.map (fun p => p.2.size_bytes)).sum

/-- Total tracked size: `sum(e.size_bytes for e in self._index.values())`. -/
def AudioCache.totalSize (st : AudioCache) : Nat :=
  entriesSize st.index

/-- Python dict assignment `d[k] = v`: replace in place if the key exists,
else append. -/
def dictInsert (k : String) (v : CacheEntry) (l : List (String × CacheEntry)) :
    List (String × CacheEntry) :=
  if l.any (fun p => p.1 = k) then
    l.map (fun p => if p.1 = k then (k, v) else p)
  else l ++ [(k, v)]

/-- Python `min(self._index, key=lambda k: ...last_accessed)` together with
the entry lookup: the first entry (in insertion order) with minimal
`last_accessed`, or `none` on an empty dict. -/
def minByAccess : List (String × CacheEntry) → Option (String × CacheEntry)
  | [] => none
  | p :: ps =>
    some (ps.foldl (fun best q =>
      if q.2.last_accessed < best.2.last_accessed then q else best) p)

/-- `AudioCache._evict_oldest`: remove the LRU entry (and its file) and
return its size; a no-op returning 0 on an empty index. -/
def AudioCache.evictOldest (st : AudioCache) : AudioCache × Nat :=
  match minByAccess st.index with
  | none => (st, 0)
  | some (k, e) =>
    ({ st with index := st.index.filter (fun p => ¬ p.1 = k) }, e.size_bytes)

/-- The entry-count loop of `_evict_if_needed`:
`while len(self._index) >= self.max_entries: self._evict_oldest()`.
If the guard holds on an empty index (`max_entries = 0`) the Python loop
never terminates, since `_evict_oldest` is then a no-op; that divergence is
modelled as `none`.  The fuel `st.index.length + 1` is otherwise always
sufficient because each iteration removes an entry. -/
def evictCountFuel : Nat → AudioCache → Option AudioCache
  | 0, _ => none
  | fuel + 1, st =>
    if st.index.length ≥ st.max_entries then
      if st.index = [] then none
      else evictCountFuel fuel (st.evictOldest).1
    else some st

/-- Entry point for the count loop with sufficient fuel. -/
def evictCountLoop (st : AudioCache) : Option AudioCache :=
  evictCountFuel (st.index.length + 1) st

/-- The byte-size loop of `_evict_if_needed`:
`while current_size + new_size > self.max_size_bytes and self._index: ...`.
The running `current_size` variable is a Python int (here `Int`),
initialized before the count loop and not updated by it.  Each iteration
removes an entry, so the loop terminates within `index.length` steps; it is
run with fuel `index.length + 1`, and `none` (fuel exhaustion) is proved
unreachable in `evictSizeFuel_isSome`. -/
def evictSizeFuel : Nat → Int → Nat → AudioCache → Option AudioCache
  | 0, _, _, _ => none
  | fuel + 1, cur, newSize, st =>
    if cur + newSize > (st.max_size_bytes : Int) ∧ st.index ≠ [] then
      evictSizeFuel fuel (cur - (st.evictOldest).2) newSize (st.evictOldest).1
    else some st

/-- `AudioCache._evict_if_needed(new_size)`: compute `current_size`, run
the count loop, then the size loop. -/
def evictIfNeeded (newSize : Nat) (st : AudioCache) : Option AudioCache :=
  let currentSize : Int := (st.index.map (fun p => (p.2.size_bytes : Int))).sum
  match evictCountLoop st with
  | none => none
  | some st1 => evictSizeFuel (st1.index.length + 1) currentSize newSize st1

/-- `AudioCache.put`: evict if needed, then attempt the file write; on
success insert/replace the index entry with fresh timestamps, on `OSError`
(oracle `writeOk = false`) swallow the failure and leave the index alone.
`none` models the divergence of the eviction loop (see `evictCountFuel`). -/
def AudioCache.put (st : AudioCache) (text voice model : String)
    (audio : List Nat) (now : Nat) (writeOk : Bool) : Option AudioCache :=
  let key := cacheKeyContent text voice model
  match evictIfNeeded audio.length st with
  | none => none
  | some st1 =>
    if writeOk then
      some { st1 with
             index := dictInsert key
               { text := text, voice := voice, model := model
                 data := audio, size_bytes := audio.length
                 created_at := now, last_accessed := now } st1.index }
    else some st1

/-- `AudioCache.get`: look up the key; on a missing index entry return
`none`; if the backing file no longer exists (`fileOnDisk = false`) drop
the stale entry and return `none`; otherwise refresh `last_accessed`
(in-place mutation of the entry) and return the bytes, degrading an
`OSError` during the read (`readOk = false`) to a miss. -/
def AudioCache.get (st : AudioCache) (text voice model : String) (now : Nat)
    (fileOnDisk : Bool) (readOk : Bool) : Option (List Nat) × AudioCache :=
  let key := cacheKeyContent text voice model
  match st.index.find? (fun p => p.1 = key) with
  | none => (none, st)
  | some (_, e) =>
    if fileOnDisk = false then
      (none, { st with index := st.index.filter (fun p => ¬ p.1 = key) })
    else
      let e' := { e with last_accessed := now }
      let st' := { st with
                   index := st.index.map (fun p => if p.1 = key then (key, e') else p) }
      if readOk then (some e'.data, st') else (none, st')

/-! ## Synthesis provider (src/agent_chime/tts/provider.py) -/

/-- Python string truthiness for `str | None` values: `None` and `""` are
falsy. -/
def pyTruthy : Option String → Bool
  | some v => v ≠ ""
  | none => false

/-- Python `a or default` on a `str | None` value with a string default. -/
def pyOrStr : Option String → String → String
  | some v, d => if v = "" then d else v
  | none, d => d

/-- Python `a or b` where both sides are `str | None`. -/
def pyOrOpt : Option String → Option String → Option String
  | some v, b => if v = "" then b else some v
  | none, b => b

/-- `TTSProvider._get_voice`: the user-specified voice if truthy, else the
model's default voice if truthy, else `None`. -/
def getVoice (voice : Option String) (spec : ModelSpec) : Option String :=
  if pyTruthy voice then voice
  else if spec.default_voice ≠ "" then some spec.default_voice
  else none

/-- `TTSProvider.synthesize` after `_select_model` has resolved the
provider's model to `spec0`.  The external engine invocation
`_generate_with_model(text, spec, voice)` is the oracle `gen` (the `text`
argument is fixed and omitted); errors are carried as message strings.
Returns the result together with the final `_model_spec` (which the code
mutates to the fallback spec before retrying). -/
def synthesizeCore (gen : ModelSpec → Option String → Except String (List Nat))
    (spec0 : ModelSpec) (voice : Option String) :
    Except String (List Nat) × ModelSpec :=
  match gen spec0 voice with
  | .ok b => (.ok b, spec0)
  | .error e =>
    if spec0.model_id ≠ get_fallback_model.model_id then
      match gen get_fallback_model (some get_fallback_model.default_voice) with
      | .ok b => (.ok b, get_fallback_model)
      | .error e2 => (.error ("Failed with fallback model: " ++ e2), get_fallback_model)
    else (.error ("Synthesis failed: " ++ e), spec0)

/-- Helper: whether an `Except` is an error. -/
def isFailure {ε α : Type} : Except ε α → Bool
  | .error _ => true
  | .ok _ => false

/-! ### Scratch-file footprint of `TTSProvider._generate_with_model`

The filesystem is modelled as a set of paths (a deduplicated list).
`tempfile.NamedTemporaryFile(suffix=".wav", delete=False)` creates the file
`<stem>.wav` on disk and `file_prefix` is `<stem>`; the engine call
`generate_audio(...)` normally writes `<stem>_000.wav` (oracle flag
`writes000`) and may raise (oracle flag `engineOk`).  Only the filesystem
effect is modelled here; the byte-level result is the `gen` oracle of
`synthesizeCore`. -/

/-- Create a file (set insert). -/
def fsAdd (p : String) (fs : List String) : List String :=
  if p ∈ fs then fs else p :: fs

/-- `Path.unlink(missing_ok=True)` (set removal, no-op when absent). -/
def fsRemove (p : String) (fs : List String) : List String :=
  fs.filter (fun q => ¬ q = p)

/-- `TTSProvider._generate_with_model`'s effect on the filesystem. -/
def generateWithModel (mlxInstalled engineOk writes000 : Bool) (stem : String)
    (fs0 : List String) : Except String Unit × List String :=
  if ¬ mlxInstalled then
    -- the import fails before any temp file is created
    (.error "mlx-audio not installed", fs0)
  else
    let outputPath := stem ++ ".wav"
    let fs1 := fsAdd outputPath fs0
    let genPath := stem ++ "_000.wav"
    if ¬ engineOk then
      -- the exception runs the cleanup in the except-branch and re-raises
      let fs2 := if writes000 then fsAdd genPath fs1 else fs1
      (.error "generate_audio failed", fsRemove genPath (fsRemove outputPath fs2))
    else
      let fs2 := if writes000 then fsAdd genPath fs1 else fs1
      if genPath ∈ fs2 then
        -- success: only `actual_output` (= the _000 file) is unlinked
        (.ok (), fsRemove genPath fs2)
      else if outputPath ∈ fs2 then
        (.ok (), fsRemove outputPath fs2)
      else
        -- `TTSError` raised inside the try-block, caught by the cleanup
        (.error "Output file not found", fsRemove genPath (fsRemove outputPath fs2))

/-! ## Renderer volume (src/agent_chime/audio/renderer.py)

Only the volume component of the renderer state is modelled; the process
handle, scratch file, cache and earcon directory play no role in the volume
claims. -/

/-- The renderer's volume state. -/
structure AudioRenderer where
  volume : ℚ
deriving DecidableEq

/-- `AudioRenderer.__init__`: `self.volume = max(0.0, min(1.0, volume))`. -/
def AudioRenderer.init (volume : ℚ) : AudioRenderer :=
  { volume := max 0 (min 1 volume) }

/-- `AudioRendererPool`'s `_renderer` slot. -/
structure AudioRendererPool where
  renderer : Option AudioRenderer
deriving DecidableEq

/-- `AudioRendererPool.get_renderer`: construct a renderer on first use,
otherwise update the existing renderer's settings with
`self._renderer.volume = volume`. -/
def AudioRendererPool.getRenderer (pool : AudioRendererPool) (volume : ℚ) :
    AudioRenderer × AudioRendererPool :=
  match pool.renderer with
  | none =>
    let r := AudioRenderer.init volume
    (r, { renderer := some r })
  | some r =>
    let r' := { r with volume := volume }
    (r', { renderer := some r' })

/-! ## Text limiting (src/agent_chime/tts/broker.py) -/

/-- `MAX_SUMMARY_LENGTH` in tts/broker.py. -/
def MAX_SUMMARY_LENGTH : Nat := 200

/-- `TRUNCATION_SUFFIX` in tts/broker.py, as a character list. -/
def TRUNCATION_SUFFIX : List Char := " Check the screen for details.".toList

/-- Python `str.rfind(c)` restricted to single characters: the highest
index at which `c` occurs, or `none`. -/
def rfindIdx (c : Char) : List Char → Option Nat
  | [] => none
  | x :: xs =>
    match rfindIdx c xs with
    | some j => some (j + 1)
    | none => if x = c then some 0 else none

/-- `TTSBroker._limit_length`, on texts as character lists.  `rfind`'s
-1-on-absence is an `Int`, compared against `MAX_SUMMARY_LENGTH // 2`. -/
def limitLength (text : List Char) : List Char :=
  if text.length ≤ MAX_SUMMARY_LENGTH then text
  else
    let truncated := text.take MAX_SUMMARY_LENGTH
    let lastSpace : Int :=
      match rfindIdx ' ' truncated with
      | some i => (i : Int)
      | none => -1
    let truncated2 :=
      if lastSpace > (MAX_SUMMARY_LENGTH : Int) / 2 then
        truncated.take lastSpace.toNat
      else truncated
    truncated2 ++ TRUNCATION_SUFFIX

/-! ## The notify flow (src/agent_chime/cli.py, `_synthesize_and_play`)

One CLI invocation constructs the cache from the on-disk state; the cache
state is threaded through explicitly here, standing for the persisted
cache directory.  `config.tts.model` / `config.tts.voice` and the
`--model` override are `str | None` values; playback is irrelevant to the
claims and omitted.  Returns the resulting cache state and whether
synthesis was invoked; `none` models divergence of the eviction loop
inside `put` (unreachable with the default caps). -/

/-- `_synthesize_and_play(text, config, model_override)`. -/
def synthesizeAndPlay (st : AudioCache) (text : String)
    (configModel configVoice modelOverride : Option String)
    (si : SystemInfo)
    (gen : ModelSpec → Option String → Except String (List Nat))
    (now : Nat) : Option (AudioCache × Bool) :=
  let model_id := pyOrOpt modelOverride configModel
  let voice := pyOrStr configVoice "alba"
  let model_for_cache := pyOrStr model_id "auto"
  let res := st.get text voice model_for_cache now true true
  if (res.1.getD []) = [] then
    -- cache miss (or falsy cached bytes): synthesize via a fresh provider
    let mode := if pyTruthy model_id then SelectionMode.manual else SelectionMode.auto
    let sel := select si model_id mode
    let voiceUsed := getVoice configVoice sel.model
    let gres := synthesizeCore gen sel.model voiceUsed
    match gres.1 with
    | .ok audio =>
      -- actual_model = provider.current_model.model_id
      ((res.2).put text voice gres.2.model_id audio now true).map
        (fun st2 => (st2, true))
    | .error _ =>
      -- TTSError: earcon fallback, no cache write
      some (res.2, true)
  else
    some (res.2, false)

/-! ## Concrete fixtures used for evaluating the code at specific inputs -/

/-- A 16 GB machine with Metal available (the spec's end-to-end scenario). -/
def si16 : SystemInfo := SystemInfo.mk 16 16 true none

/-- An engine oracle that always succeeds. -/
def genOkFixture : ModelSpec → Option String → Except String (List Nat) :=
  fun _ _ => Except.ok [1, 2, 3]

/-- An engine oracle that fails for every model except pocket-tts. -/
def genPocketOnly : ModelSpec → Option String → Except String (List Nat) :=
  fun s _ => if s.model_id = (MODELS .pocket).model_id
    then Except.ok [7] else Except.error "boom"

/-- A one-entry cache fixture. -/
def cacheW : AudioCache :=
  AudioCache.mk 100 10
    [(cacheKeyContent "t" "v" "m", CacheEntry.mk "t" "v" "m" [9] 1 0 0)]

/-- 251 characters with a space at index 150 and no other whitespace. -/
def tSpaceW : List Char :=
  List.replicate 150 'a' ++ ' ' :: List.replicate 100 'b'

/-- 251 characters whose only whitespace is a newline at index 150. -/
def tNewlineW : List Char :=
  List.replicate 150 'a' ++ '\n' :: List.replicate 100 'b'

/-! ## Supporting lemmas about the cache -/

theorem foldl_min_mem (t : List (String × CacheEntry)) (a : String × CacheEntry) :
    t.foldl (fun best q => if q.2.last_accessed < best.2.last_accessed then q else best) a = a ∨
    t.foldl (fun best q => if q.2.last_accessed < best.2.last_accessed then q else best) a ∈ t := by
  induction t generalizing a with
  | nil => exact Or.inl rfl
  | cons b t ih =>
    simp only [List.foldl_cons]
    rcases ih (if b.2.last_accessed < a.2.last_accessed then b else a) with h | h
    · rw [h]
      by_cases hb : b.2.last_accessed < a.2.last_accessed
      · simp [hb]
      · simp [hb]
    · exact Or.inr (List.mem_cons_of_mem b h)

theorem foldl_min_le (t : List (String × CacheEntry)) (a : String × CacheEntry) :
    (t.foldl (fun best q => if q.2.last_accessed < best.2.last_accessed then q else best)
        a).2.last_accessed ≤ a.2.last_accessed ∧
    ∀ p ∈ t,
      (t.foldl (fun best q => if q.2.last_accessed < best.2.last_accessed then q else best)
          a).2.last_accessed ≤ p.2.last_accessed := by
  induction t generalizing a with
  | nil => simp
  | cons b t ih =>
    simp only [List.foldl_cons]
    obtain ⟨h1, h2⟩ := ih (if b.2.last_accessed < a.2.last_accessed then b else a)
    have hba : (if b.2.last_accessed < a.2.last_accessed then b
        else a).2.last_accessed ≤ a.2.last_accessed := by
      by_cases hb : b.2.last_accessed < a.2.last_accessed
      · simp only [hb, if_pos]
        exact le_of_lt hb
      · simp [hb]
    have hbb : (if b.2.last_accessed < a.2.last_accessed then b
        else a).2.last_accessed ≤ b.2.last_accessed := by
      by_cases hb : b.2.last_accessed < a.2.last_accessed
      · simp [hb]
      · simp only [hb, if_neg, if_false]
        exact le_of_not_lt hb
    refine ⟨le_trans h1 hba, ?_⟩
    intro p hp
    rcases List.mem_cons.mp hp with rfl | hp
    · exact le_trans h1 hbb
    · exact h2 p hp

theorem minByAccess_eq_none (l : List (String × CacheEntry)) :
    minByAccess l = none ↔ l = [] := by
  cases l <;> simp [minByAccess]

theorem minByAccess_mem (l : List (String × CacheEntry)) (ke : String × CacheEntry)
    (h : minByAccess l = some ke) : ke ∈ l := by
  cases l with
  | nil => simp [minByAccess] at h
  | cons a t =>
    simp only [minByAccess, Option.some.injEq] at h
    subst h
    rcases foldl_min_mem t a with h | h
    · rw [h]; exact List.mem_cons_self a t
    · exact List.mem_cons_of_mem a h

theorem minByAccess_min (l : List (String × CacheEntry)) (ke : String × CacheEntry)
    (h : minByAccess l = some ke) :
    ∀ p ∈ l, ke.2.last_accessed ≤ p.2.last_accessed := by
  cases l with
  | nil => simp [minByAccess] at h
  | cons a t =>
    simp only [minByAccess, Option.some.injEq] at h
    subst h
    intro p hp
    rcases List.mem_cons.mp hp with rfl | hp
    · exact (foldl_min_le t p).1
    · exact (foldl_min_le t a).2 p hp

theorem entriesSize_cons (a : String × CacheEntry) (t : List (String × CacheEntry)) :
    entriesSize (a :: t) = a.2.size_bytes + entriesSize t := by
  simp [entriesSize]

theorem entriesSize_filter_le (p : String × CacheEntry → Bool)
    (l : List (String × CacheEntry)) : entriesSize (l.filter p) ≤ entriesSize l := by
  induction l with
  | nil => simp [entriesSize]
  | cons a t ih =>
    rw [List.filter_cons]
    by_cases h : p a
    · rw [if_pos h, entriesSize_cons, entriesSize_cons]
      omega
    · rw [if_neg h, entriesSize_cons]
      omega

theorem entriesSize_filter_key (l : List (String × CacheEntry)) (k : String)
    (e : CacheEntry) (hm : (k, e) ∈ l) :
    entriesSize (l.filter (fun p => ¬ p.1 = k)) + e.size_bytes ≤ entriesSize l := by
  induction l with
  | nil => simp at hm
  | cons a t ih =>
    rcases List.mem_cons.mp hm with h | h
    · rw [← h, List.filter_cons, if_neg (by simp), entriesSize_cons,
        show ((k, e) : String × CacheEntry).2 = e from rfl]
      have := entriesSize_filter_le (fun p => ¬ p.1 = k) t
      omega
    · rw [List.filter_cons]
      by_cases ha : (fun p => decide (¬ p.1 = k)) a
      · rw [if_pos ha, entriesSize_cons, entriesSize_cons]
        have := ih h
        omega
      · rw [if_neg ha, entriesSize_cons]
        have := ih h
        omega

theorem entriesSize_sublist_le (l1 l2 : List (String × CacheEntry))
    (h : l1.Sublist l2) : entriesSize l1 ≤ entriesSize l2 := by
  induction h with
  | slnil => exact le_rfl
  | cons a _ ih =>
    rw [entriesSize_cons]
    omega
  | cons₂ a _ ih =>
    rw [entriesSize_cons, entriesSize_cons]
    omega

theorem length_filter_lt_of_mem {α : Type} (p : α → Bool) (l : List α) (x : α)
    (hx : x ∈ l) (hpx : p x = false) : (l.filter p).length < l.length := by
  induction l with
  | nil => simp at hx
  | cons a t ih =>
    rcases List.mem_cons.mp hx with rfl | hx
    · rw [List.filter_cons, hpx]
      simp only [Bool.false_eq_true, if_false, List.length_cons]
      exact Nat.lt_succ_of_le (List.length_filter_le p t)
    · rw [List.filter_cons]
      by_cases ha : p a
      · rw [if_pos ha]
        simpa using Nat.succ_lt_succ (ih hx)
      · rw [if_neg ha]
        exact Nat.lt_succ_of_lt (ih hx)

theorem evictOldest_fields (st : AudioCache) :
    (st.evictOldest).1.max_entries = st.max_entries ∧
    (st.evictOldest).1.max_size_bytes = st.max_size_bytes := by
  rcases h : minByAccess st.index with _ | ⟨k, e⟩ <;>
    simp [AudioCache.evictOldest, h]

theorem evictOldest_index_sublist (st : AudioCache) :
    (st.evictOldest).1.index.Sublist st.index := by
  rcases h : minByAccess st.index with _ | ⟨k, e⟩
  · simp only [AudioCache.evictOldest, h]
    exact List.Sublist.refl _
  · simp only [AudioCache.evictOldest, h]
    exact List.filter_sublist _

theorem evictOldest_length_lt (st : AudioCache) (h : st.index ≠ []) :
    (st.evictOldest).1.index.length < st.index.length := by
  rcases hm : minByAccess st.index with _ | ⟨k, e⟩
  · exact absurd ((minByAccess_eq_none _).mp hm) h
  · have hmem : (k, e) ∈ st.index := minByAccess_mem _ _ hm
    simp only [AudioCache.evictOldest, hm]
    exact length_filter_lt_of_mem _ _ _ hmem (by simp)

theorem evictOldest_size_le (st : AudioCache) (h : st.index ≠ []) :
    entriesSize (st.evictOldest).1.index + (st.evictOldest).2 ≤ entriesSize st.index := by
  rcases hm : minByAccess st.index with _ | ⟨k, e⟩
  · exact absurd ((minByAccess_eq_none _).mp hm) h
  · have hmem : (k, e) ∈ st.index := minByAccess_mem _ _ hm
    simp only [AudioCache.evictOldest, hm]
    exact entriesSize_filter_key _ _ _ hmem

theorem evictCountFuel_spec (fuel : Nat) :
    ∀ st st1, evictCountFuel fuel st = some st1 →
      st1.index.length < st1.max_entries ∧ st1.max_entries = st.max_entries ∧
      st1.max_size_bytes = st.max_size_bytes ∧ st1.index.Sublist st.index := by
  induction fuel with
  | zero =>
    intro st st1 h
    simp [evictCountFuel] at h
  | succ fuel ih =>
    intro st st1 h
    simp only [evictCountFuel] at h
    by_cases hg : st.index.length ≥ st.max_entries
    · rw [if_pos hg] at h
      by_cases he : st.index = []
      · rw [if_pos he] at h
        exact absurd h (by simp)
      · rw [if_neg he] at h
        obtain ⟨a1, a2, a3, a4⟩ := ih _ _ h
        have hf := evictOldest_fields st
        exact ⟨a1, a2.trans hf.1, a3.trans hf.2,
          a4.trans (evictOldest_index_sublist st)⟩
    · rw [if_neg hg] at h
      injection h with h
      subst h
      exact ⟨Nat.lt_of_not_le hg, rfl, rfl, List.Sublist.refl _⟩

theorem evictCountFuel_isSome (fuel : Nat) :
    ∀ st : AudioCache, st.index.length < fuel → 1 ≤ st.max_entries →
      (evictCountFuel fuel st).isSome := by
  induction fuel with
  | zero =>
    intro st hf _
    omega
  | succ fuel ih =>
    intro st hf hme
    simp only [evictCountFuel]
    by_cases hg : st.index.length ≥ st.max_entries
    · rw [if_pos hg]
      by_cases he : st.index = []
      · rw [he] at hg
        simp at hg
        omega
      · rw [if_neg he]
        apply ih
        · exact Nat.lt_of_lt_of_le (evictOldest_length_lt st he) (Nat.lt_succ_iff.mp hf)
        · rw [(evictOldest_fields st).1]
          exact hme
    · rw [if_neg hg]
      simp

theorem evictSizeFuel_spec (fuel : Nat) :
    ∀ (cur : Int) (n : Nat) (st st1 : AudioCache),
      evictSizeFuel fuel cur n st = some st1 →
      st1.max_entries = st.max_entries ∧ st1.max_size_bytes = st.max_size_bytes ∧
      st1.index.Sublist st.index ∧
      ((entriesSize st.index : Int) ≤ cur →
        entriesSize st1.index + n ≤ st.max_size_bytes ∨ st1.index = []) := by
  induction fuel with
  | zero =>
    intro cur n st st1 h
    simp [evictSizeFuel] at h
  | succ fuel ih =>
    intro cur n st st1 h
    simp only [evictSizeFuel] at h
    by_cases hg : cur + n > (st.max_size_bytes : Int) ∧ st.index ≠ []
    · rw [if_pos hg] at h
      obtain ⟨a1, a2, a3, a4⟩ := ih _ _ _ _ h
      have hf := evictOldest_fields st
      refine ⟨a1.trans hf.1, a2.trans hf.2,
        a3.trans (evictOldest_index_sublist st), ?_⟩
      intro hcur
      have hsz := evictOldest_size_le st hg.2
      have hcast : (entriesSize (st.evictOldest).1.index : Int) + ((st.evictOldest).2 : Int)
          ≤ (entriesSize st.index : Int) := by exact_mod_cast hsz
      have hinv : (entriesSize (st.evictOldest).1.index : Int)
          ≤ cur - ((st.evictOldest).2 : Int) := by omega
      rcases a4 hinv with hle | hnil
      · rw [hf.2] at hle
        exact Or.inl hle
      · exact Or.inr hnil
    · rw [if_neg hg] at h
      injection h with h
      subst h
      refine ⟨rfl, rfl, List.Sublist.refl _, ?_⟩
      intro hcur
      by_cases he : st.index = []
      · exact Or.inr he
      · left
        have hng : ¬ cur + n > (st.max_size_bytes : Int) := fun hc => hg ⟨hc, he⟩
        have : (entriesSize st.index : Int) + n ≤ (st.max_size_bytes : Int) := by omega
        exact_mod_cast this

theorem evictSizeFuel_isSome (fuel : Nat) :
    ∀ (cur : Int) (n : Nat) (st : AudioCache), st.index.length < fuel →
      (evictSizeFuel fuel cur n st).isSome := by
  induction fuel with
  | zero =>
    intro cur n st hf
    omega
  | succ fuel ih =>
    intro cur n st hf
    simp only [evictSizeFuel]
    by_cases hg : cur + n > (st.max_size_bytes : Int) ∧ st.index ≠ []
    · rw [if_pos hg]
      exact ih _ _ _ (Nat.lt_of_lt_of_le (evictOldest_length_lt st hg.2)
        (Nat.lt_succ_iff.mp hf))
    · rw [if_neg hg]
      simp

theorem dictInsert_length (k : String) (v : CacheEntry)
    (l : List (String × CacheEntry)) : (dictInsert k v l).length ≤ l.length + 1 := by
  unfold dictInsert
  by_cases h : l.any (fun p => p.1 = k)
  · rw [if_pos h]
    simp
  · rw [if_neg h]
    simp

theorem entriesSize_map_replace (k : String) (v : CacheEntry)
    (l : List (String × CacheEntry)) (hnd : (l.map Prod.fst).Nodup) :
    entriesSize (l.map (fun p => if p.1 = k then (k, v) else p))
      ≤ entriesSize l + v.size_bytes := by
  induction l with
  | nil => simp [entriesSize]
  | cons a t ih =>
    simp only [List.map_cons, List.nodup_cons] at hnd
    by_cases ha : a.1 = k
    · have ht : t.map (fun p => if p.1 = k then (k, v) else p) = t := by
        conv_rhs => rw [← List.map_id t]
        apply List.map_congr_left
        intro p hp
        rw [if_neg]
        · rfl
        · intro hpk
          exact hnd.1 (List.mem_map.mpr ⟨p, hp, by rw [hpk, ha]⟩)
      rw [List.map_cons, if_pos ha, entriesSize_cons, entriesSize_cons, ht]
      simp only
      omega
    · rw [List.map_cons, if_neg ha, entriesSize_cons, entriesSize_cons]
      have := ih hnd.2
      omega

theorem entriesSize_dictInsert (k : String) (v : CacheEntry)
    (l : List (String × CacheEntry)) (hnd : (l.map Prod.fst).Nodup) :
    entriesSize (dictInsert k v l) ≤ entriesSize l + v.size_bytes := by
  unfold dictInsert
  by_cases h : l.any (fun p => p.1 = k)
  · rw [if_pos h]
    exact entriesSize_map_replace k v l hnd
  · rw [if_neg h]
    simp [entriesSize]

theorem entriesSize_cast (l : List (String × CacheEntry)) :
    (l.map (fun p => (p.2.size_bytes : Int))).sum = (entriesSize l : Int) := by
  induction l with
  | nil => simp [entriesSize]
  | cons a t ih =>
    rw [List.map_cons, List.sum_cons, ih, entriesSize_cons]
    push_cast
    ring

/-! ## Claim theorems -/

/-- C2, counterexample: with `max_size_mb = 0` (so `max_size_bytes = 0`),
`put` of a single byte completes, yet the tracked size afterwards is 1,
exceeding the byte-size cap: the size loop stops as soon as the index is
empty, and then inserts the incoming entry regardless of its size. -/
theorem cache_put_size_cap_counterexample :
    ((AudioCache.empty 0 1000).put "t" "v" "m" [0] 0 true).map
      (fun st => decide (st.totalSize ≤ st.max_size_bytes)) = some false := by decide

/-- C2 (amended): eviction always removes an entry with minimal
`last_accessed` (first-inserted on ties), and for a cache with
`max_entries ≥ 1` and a well-formed index (dict keys are unique), every
`put` completes with `count ≤ max_entries`; the byte-size cap
`totalSize ≤ max_size_bytes` additionally holds whenever the incoming
audio itself fits the cap (an oversized entry is inserted into an emptied
cache, violating the cap — see the counterexample). -/
theorem cache_put_lru_caps (st : AudioCache) (text voice model : String)
    (audio : List Nat) (now : Nat) (writeOk : Bool)
    (hme : 1 ≤ st.max_entries) (hnd : (st.index.map Prod.fst).Nodup) :
    (∀ (l : List (String × CacheEntry)) (ke : String × CacheEntry),
      minByAccess l = some ke →
        ke ∈ l ∧ ∀ p ∈ l, ke.2.last_accessed ≤ p.2.last_accessed) ∧
    ∃ st2, st.put text voice model audio now writeOk = some st2 ∧
      st2.index.length ≤ st.max_entries ∧
      (audio.length ≤ st.max_size_bytes → st2.totalSize ≤ st.max_size_bytes) := by
  refine ⟨fun l ke h => ⟨minByAccess_mem l ke h, minByAccess_min l ke h⟩, ?_⟩
  obtain ⟨st1, h1⟩ := Option.isSome_iff_exists.mp
    (evictCountFuel_isSome _ st (Nat.lt_succ_self _) hme)
  obtain ⟨c1, c2, c3, c4⟩ := evictCountFuel_spec _ _ _ h1
  obtain ⟨stm, h2⟩ := Option.isSome_iff_exists.mp
    (evictSizeFuel_isSome (st1.index.length + 1)
      ((st.index.map (fun p => (p.2.size_bytes : Int))).sum) audio.length st1
      (Nat.lt_succ_self _))
  obtain ⟨s1, s2, s3, s4⟩ := evictSizeFuel_spec _ _ _ _ _ h2
  have hev : evictIfNeeded audio.length st = some stm := by
    simp only [evictIfNeeded, evictCountLoop, h1]
    exact h2
  have hsize : entriesSize stm.index + audio.length ≤ st.max_size_bytes ∨
      stm.index = [] := by
    rcases s4 (by
      rw [entriesSize_cast]
      exact_mod_cast Int.ofNat_le.mpr (entriesSize_sublist_le _ _ c4)) with h | h
    · rw [c3] at h
      exact Or.inl h
    · exact Or.inr h
  have hlen : stm.index.length ≤ st1.index.length := List.Sublist.length_le s3
  have hndm : (stm.index.map Prod.fst).Nodup :=
    List.Nodup.sublist (List.Sublist.map Prod.fst (s3.trans c4)) hnd
  have hput : st.put text voice model audio now writeOk =
      if writeOk then
        some { stm with index := (dictInsert (cacheKeyContent text voice model)
          (CacheEntry.mk text voice model audio audio.length now now) stm.index) }
      else some stm := by
    simp only [AudioCache.put, hev]
  rw [hput]
  by_cases hw : writeOk
  · rw [if_pos hw]
    refine ⟨_, rfl, ?_, ?_⟩
    · have := dictInsert_length (cacheKeyContent text voice model)
        (CacheEntry.mk text voice model audio audio.length now now) stm.index
      have hc : st1.index.length < st.max_entries := by
        rw [← c2]
        exact c1
      simp only [AudioCache.totalSize]
      omega
    · intro hfit
      have hins := entriesSize_dictInsert (cacheKeyContent text voice model)
        (CacheEntry.mk text voice model audio audio.length now now) stm.index hndm
      simp only [AudioCache.totalSize]
      rcases hsize with h | h
      · simp only at hins
        omega
      · rw [h] at hins ⊢
        simp only [entriesSize, List.map_nil, List.sum_nil, Nat.zero_add] at hins
        simpa using le_trans hins hfit
  · rw [if_neg hw]
    refine ⟨_, rfl, ?_, ?_⟩
    · have hc : st1.index.length < st.max_entries := by
        rw [← c2]
        exact c1
      omega
    · intro hfit
      simp only [AudioCache.totalSize]
      rcases hsize with h | h
      · omega
      · rw [h]
        simp [entriesSize]

/-- C2 witness: a concrete completed `put` on the default-sized cache,
obtained from `cache_put_lru_caps`. -/
theorem cache_put_lru_caps_witness :
    ∃ st2, (AudioCache.empty 100 1000).put "t" "v" "m" [0] 0 true = some st2 ∧
      st2.index.length ≤ (AudioCache.empty 100 1000).max_entries ∧
      ([0].length ≤ (AudioCache.empty 100 1000).max_size_bytes →
        st2.totalSize ≤ (AudioCache.empty 100 1000).max_size_bytes) :=
  (cache_put_lru_caps (AudioCache.empty 100 1000) "t" "v" "m" [0] 0 true
    (by decide) (by decide)).2

/-! ## Key pre-image injectivity lemmas -/

theorem append_pipe_inj (a : List Char) : ∀ (c b d : List Char), '|' ∉ a → '|' ∉ c →
    a ++ '|' :: b = c ++ '|' :: d → a = c ∧ b = d := by
  induction a with
  | nil =>
    intro c b d _ hc h
    cases c with
    | nil => simpa using h
    | cons y ys =>
      simp only [List.nil_append, List.cons_append, List.cons.injEq] at h
      refine absurd ?_ hc
      rw [← h.1]
      exact List.mem_cons_self _ _
  | cons x xs ih =>
    intro c b d ha hc h
    cases c with
    | nil =>
      simp only [List.nil_append, List.cons_append, List.cons.injEq] at h
      refine absurd ?_ ha
      rw [h.1]
      exact List.mem_cons_self _ _
    | cons y ys =>
      simp only [List.cons_append, List.cons.injEq] at h
      obtain ⟨hxy, h2⟩ := h
      have hxs : '|' ∉ xs := fun hm => ha (List.mem_cons_of_mem _ hm)
      have hys : '|' ∉ ys := fun hm => hc (List.mem_cons_of_mem _ hm)
      obtain ⟨h3, h4⟩ := ih ys b d hxs hys h2
      exact ⟨by rw [hxy, h3], h4⟩

theorem cacheKeyContent_data (t v m : String) :
    (cacheKeyContent t v m).data = t.data ++ '|' :: (v.data ++ '|' :: m.data) := by
  simp [cacheKeyContent, String.data_append]

theorem cacheKeyContent_inj (t v m t' v' m' : String)
    (ht : '|' ∉ t.data) (ht' : '|' ∉ t'.data) (hv : '|' ∉ v.data) (hv' : '|' ∉ v'.data)
    (h : cacheKeyContent t v m = cacheKeyContent t' v' m') :
    t = t' ∧ v = v' ∧ m = m' := by
  have hd := congrArg String.data h
  rw [cacheKeyContent_data, cacheKeyContent_data] at hd
  obtain ⟨h1, h2⟩ := append_pipe_inj t.data t'.data _ _ ht ht' hd
  obtain ⟨h3, h4⟩ := append_pipe_inj v.data v'.data _ _ hv hv' h2
  refine ⟨?_, ?_, ?_⟩
  · cases t
    cases t'
    exact congrArg String.mk (by simpa using h1)
  · cases v
    cases v'
    exact congrArg String.mk (by simpa using h3)
  · cases m
    cases m'
    exact congrArg String.mk (by simpa using h4)

/-- C6, counterexample: the delimiter may occur inside a component, so two
distinct triples can share the digest pre-image — the spec's
"delimiter-separated to avoid ambiguous concatenation collisions" does not
hold for components containing the `|` delimiter. -/
theorem cache_key_collision_counterexample :
    cacheKeyContent "a|b" "c" "m" = cacheKeyContent "a" "b|c" "m" ∧
    ("a|b", "c", "m") ≠ (("a", "b|c", "m") : String × String × String) := by decide

/-- C6 (amended): the digest pre-image `text|voice|model` is deterministic
(identical triples always receive the identical key) and injective for
distinct triples whose text and voice components do not contain the `|`
delimiter — so such triples do not share a key short of a hash collision;
triples with `|` inside a component can collide (see the counterexample). -/
theorem cache_key_deterministic_and_injective :
    (∀ t v m t' v' m' : String, t = t' → v = v' → m = m' →
      cacheKeyContent t v m = cacheKeyContent t' v' m') ∧
    (∀ t v m t' v' m' : String,
      '|' ∉ t.data → '|' ∉ t'.data → '|' ∉ v.data → '|' ∉ v'.data →
      cacheKeyContent t v m = cacheKeyContent t' v' m' →
      t = t' ∧ v = v' ∧ m = m') := by
  refine ⟨?_, ?_⟩
  · intro t v m t' v' m' h1 h2 h3
    rw [h1, h2, h3]
  · intro t v m t' v' m' ht ht' hv hv' h
    exact cacheKeyContent_inj t v m t' v' m' ht ht' hv hv' h

/-- C6 witness: the injectivity direction applied at a concrete collision-
free triple. -/
theorem cache_key_deterministic_and_injective_witness :
    ("ab" : String) = "ab" ∧ ("cd" : String) = "cd" ∧ ("ef" : String) = "ef" :=
  cache_key_deterministic_and_injective.2 "ab" "cd" "ef" "ab" "cd" "ef"
    (by decide) (by decide) (by decide) (by decide) rfl

/-- C9, counterexample: updating the volume of an already-pooled renderer
(`AudioRendererPool.get_renderer`) assigns the raw value without clamping,
so the renderer's volume can leave `[0, 1]`. -/
theorem renderer_pool_volume_counterexample :
    (((AudioRendererPool.mk (some (AudioRenderer.init (4/5)))).getRenderer 2).1.volume
      = 2) ∧
    ¬ (((AudioRendererPool.mk (some (AudioRenderer.init (4/5)))).getRenderer 2).1.volume
      ≤ 1) := by
  constructor
  · rfl
  · norm_num [AudioRendererPool.getRenderer]

/-- C9 (amended): the volume is clamped to `[0, 1]` at construction
(including pool-mediated construction of a fresh renderer), but a pool
update of an existing renderer assigns the raw, unclamped value. -/
theorem renderer_volume_clamped_at_construction :
    (∀ v : ℚ, 0 ≤ (AudioRenderer.init v).volume ∧ (AudioRenderer.init v).volume ≤ 1) ∧
    (∀ v : ℚ, ((AudioRendererPool.mk none).getRenderer v).1.volume
      = (AudioRenderer.init v).volume) ∧
    (∀ (r : AudioRenderer) (v : ℚ),
      ((AudioRendererPool.mk (some r)).getRenderer v).1.volume = v) := by
  refine ⟨fun v => ⟨le_max_left 0 _, max_le (by norm_num) (min_le_left 1 v)⟩,
    fun v => rfl, fun r v => rfl⟩

/-- C5: on the ordinary success path (mlx importable, engine succeeds and
writes the `<stem>_000.wav` output), `_generate_with_model` returns the
audio but leaves the `NamedTemporaryFile` placeholder `<stem>.wav` on
disk — only the `_000` file is unlinked before returning.  (The failure
path, by contrast, removes both files.) -/
theorem generate_with_model_leaks_scratch :
    (generateWithModel true true true "scratch" []).1 = Except.ok () ∧
    "scratch.wav" ∈ (generateWithModel true true true "scratch" []).2 ∧
    (generateWithModel true false true "scratch" []).2 = [] :=
  ⟨rfl, by decide, rfl⟩

/-! ## Lemmas about `get` on a read failure -/

theorem find?_map_replace (l : List (String × CacheEntry)) (key : String)
    (e' : CacheEntry) (ke : String × CacheEntry)
    (h : l.find? (fun p => p.1 = key) = some ke) :
    (l.map (fun p => if p.1 = key then (key, e') else p)).find? (fun p => p.1 = key)
      = some (key, e') := by
  induction l with
  | nil => simp at h
  | cons a t ih =>
    by_cases ha : a.1 = key
    · rw [List.map_cons, if_pos ha, List.find?_cons_of_pos _ (by simp)]
    · rw [List.map_cons, if_neg ha, List.find?_cons_of_neg _ (by simp [ha])]
      rw [List.find?_cons_of_neg _ (by simp [ha])] at h
      exact ih h

theorem mem_of_mem_map_replace (l : List (String × CacheEntry)) (key : String)
    (e' : CacheEntry) (p : String × CacheEntry)
    (hp : p ∈ l.map (fun q => if q.1 = key then (key, e') else q))
    (hne : p.1 ≠ key) : p ∈ l := by
  obtain ⟨q, hq, hqe⟩ := List.mem_map.mp hp
  by_cases hk : q.1 = key
  · rw [if_pos hk] at hqe
    rw [← hqe] at hne
    simp at hne
  · rw [if_neg hk] at hqe
    rw [← hqe]
    exact hq

/-- C10: when `get` finds an index entry whose backing file exists but the
read fails with an `OSError`, it returns a miss (`none`) while the entry
stays in the index with its `last_accessed` already refreshed to the
current time — the failed read promotes the entry instead of leaving the
cache unchanged or dropping the entry; all other entries are untouched. -/
theorem cache_get_read_failure (st : AudioCache) (text voice model : String)
    (now : Nat) (e : CacheEntry)
    (hfind : st.index.find? (fun p => p.1 = cacheKeyContent text voice model)
      = some (cacheKeyContent text voice model, e)) :
    (st.get text voice model now true false).1 = none ∧
    ((st.get text voice model now true false).2).index.find?
        (fun p => p.1 = cacheKeyContent text voice model)
      = some (cacheKeyContent text voice model, { e with last_accessed := now }) ∧
    ((st.get text voice model now true false).2).index.length = st.index.length ∧
    (∀ p ∈ ((st.get text voice model now true false).2).index,
      p.1 ≠ cacheKeyContent text voice model → p ∈ st.index) ∧
    ({ e with last_accessed := now } : CacheEntry).last_accessed = now := by
  have hget : st.get text voice model now true false =
      (none, { st with index := st.index.map (fun p =>
        if p.1 = cacheKeyContent text voice model
        then (cacheKeyContent text voice model, { e with last_accessed := now })
        else p) }) := by
    simp [AudioCache.get, hfind]
  rw [hget]
  refine ⟨rfl, ?_, ?_, ?_, rfl⟩
  · exact find?_map_replace _ _ _ _ hfind
  · exact List.length_map _ _
  · intro p hp hne
    exact mem_of_mem_map_replace _ _ _ p hp hne

/-- C10 witness: the read-failure behavior at a concrete one-entry cache. -/
theorem cache_get_read_failure_witness :
    (cacheW.get "t" "v" "m" 7 true false).1 = none ∧
    ((cacheW.get "t" "v" "m" 7 true false).2).index.find?
        (fun p => p.1 = cacheKeyContent "t" "v" "m")
      = some (cacheKeyContent "t" "v" "m",
          { CacheEntry.mk "t" "v" "m" [9] 1 0 0 with last_accessed := 7 }) :=
  ⟨(cache_get_read_failure cacheW "t" "v" "m" 7
      (CacheEntry.mk "t" "v" "m" [9] 1 0 0) (by decide)).1,
    (cache_get_read_failure cacheW "t" "v" "m" 7
      (CacheEntry.mk "t" "v" "m" [9] 1 0 0) (by decide)).2.1⟩

/-- C4, counterexample: if the host utility behind the total-memory probe
is absent (`FileNotFoundError` from `subprocess.run`), `detect` raises
instead of degrading — `_get_total_memory` catches only
`CalledProcessError` and `ValueError`. -/
theorem detect_raises_on_absent_utility :
    detect .fileNotFound 8 4 (.ok true) (.ok "chip") (.ok none)
      = .error .fileNotFoundError := rfl

/-- C4 (amended): for every probe outcome in which the shelled-out host
utilities are present (failures limited to non-zero exit, unparseable
output, or an accelerator-runtime load/query failure), `detect` returns a
`SystemInfo`, degrading each failed probe to its fallback: psutil total
memory on a failed or unparseable primary probe, accelerator reported not
available on any accelerator-probe failure, chip name `None` when both
chip probes exit non-zero.  An absent utility (`FileNotFoundError`)
propagates instead (see the counterexample). -/
theorem detect_degrades_probe_failures (memProbe : SubprocessResult String)
    (psutilTotal psutilAvailable : ℚ) (metal : MetalProbe)
    (chip1 : SubprocessResult String) (chip2 : SubprocessResult (Option String))
    (h1 : memProbe ≠ .fileNotFound) (h2 : chip1 ≠ .fileNotFound)
    (h3 : chip2 ≠ .fileNotFound) :
    ∃ si : SystemInfo,
      detect memProbe psutilTotal psutilAvailable metal chip1 chip2 = .ok si ∧
      si.available_memory_gb = psutilAvailable ∧
      si.metal_available = checkMetal metal ∧
      (memProbe = .calledProcessError → si.total_memory_gb = psutilTotal) ∧
      (∀ s, memProbe = .ok s → s.toNat? = none → si.total_memory_gb = psutilTotal) ∧
      (metal ≠ MetalProbe.ok true → si.metal_available = false) ∧
      (chip1 = .calledProcessError → chip2 = .calledProcessError →
        si.chip_name = none) := by
  have hmetal : metal ≠ MetalProbe.ok true → checkMetal metal = false := by
    intro hne
    cases metal with
    | ok b =>
      cases b with
      | false => rfl
      | true => exact absurd rfl hne
    | importError => rfl
    | queryError => rfl
  obtain ⟨tval, htv, ht1, ht2⟩ :
      ∃ tval, getTotalMemory memProbe psutilTotal = .ok tval ∧
        (memProbe = .calledProcessError → tval = psutilTotal) ∧
        (∀ s, memProbe = .ok s → s.toNat? = none → tval = psutilTotal) := by
    cases memProbe with
    | ok s =>
      cases hn : s.toNat? with
      | some n =>
        refine ⟨(n : ℚ) / (1024 ^ 3), by simp [getTotalMemory, hn], by simp, ?_⟩
        intro s' hs hnone
        injection hs with hs
        subst hs
        rw [hn] at hnone
        simp at hnone
      | none =>
        refine ⟨psutilTotal, by simp [getTotalMemory, hn], by simp, fun _ _ _ => rfl⟩
    | calledProcessError => exact ⟨psutilTotal, rfl, fun _ => rfl, by simp⟩
    | fileNotFound => exact absurd rfl h1
  obtain ⟨cval, hcv, hc1⟩ :
      ∃ cval, getChipName chip1 chip2 = .ok cval ∧
        (chip1 = .calledProcessError → chip2 = .calledProcessError →
          cval = none) := by
    cases chip1 with
    | ok s => exact ⟨some s.trim, rfl, by simp⟩
    | calledProcessError =>
      cases chip2 with
      | ok f => exact ⟨f, rfl, fun _ hc => by simp at hc⟩
      | calledProcessError => exact ⟨none, rfl, fun _ _ => rfl⟩
      | fileNotFound => exact absurd rfl h3
    | fileNotFound => exact absurd rfl h2
  refine ⟨SystemInfo.mk tval (getAvailableMemory psutilAvailable) (checkMetal metal) cval,
    ?_, rfl, rfl, ht1, ht2, hmetal, hc1⟩
  simp only [detect, htv, hcv]
  rfl

/-- C4 witness: all probes failing recoverably degrade to the psutil
total, accelerator unavailable, and no chip name. -/
theorem detect_degrades_probe_failures_witness :
    ∃ si : SystemInfo,
      detect .calledProcessError 8 4 .importError .calledProcessError
        .calledProcessError = .ok si ∧
      si.available_memory_gb = 4 ∧
      si.metal_available = checkMetal .importError ∧
      ((SubprocessResult.calledProcessError : SubprocessResult String)
        = SubprocessResult.calledProcessError → si.total_memory_gb = 8) ∧
      (∀ s : String, (SubprocessResult.calledProcessError : SubprocessResult String)
        = SubprocessResult.ok s → s.toNat? = none → si.total_memory_gb = 8) ∧
      (MetalProbe.importError ≠ MetalProbe.ok true → si.metal_available = false) ∧
      ((SubprocessResult.calledProcessError : SubprocessResult String)
          = SubprocessResult.calledProcessError →
        (SubprocessResult.calledProcessError : SubprocessResult (Option String))
          = SubprocessResult.calledProcessError →
        si.chip_name = none) :=
  detect_degrades_probe_failures .calledProcessError 8 4 .importError
    .calledProcessError .calledProcessError (by simp) (by simp) (by simp)

/-- C3: `synthesize` fails if and only if the attempt with the resolved
model fails and either that model already is the pocket fallback or the
single retry with the pocket fallback also fails; when the resolved model
is not the fallback, a primary failure is followed by exactly the one
fallback attempt, which determines the outcome. -/
theorem synthesize_fallback_spec
    (gen : ModelSpec → Option String → Except String (List Nat))
    (spec0 : ModelSpec) (voice : Option String) :
    (isFailure (synthesizeCore gen spec0 voice).1 = true ↔
      (isFailure (gen spec0 voice) = true ∧
        (spec0.model_id = get_fallback_model.model_id ∨
          isFailure (gen get_fallback_model
            (some get_fallback_model.default_voice)) = true))) ∧
    (isFailure (gen spec0 voice) = true →
      spec0.model_id ≠ get_fallback_model.model_id →
      synthesizeCore gen spec0 voice =
        (match gen get_fallback_model (some get_fallback_model.default_voice) with
         | .ok b => (.ok b, get_fallback_model)
         | .error e2 =>
           (.error ("Failed with fallback model: " ++ e2), get_fallback_model))) := by
  cases hp : gen spec0 voice with
  | ok b =>
    constructor
    · simp [synthesizeCore, hp, isFailure]
    · intro hf
      simp [isFailure] at hf
  | error e =>
    by_cases hid : spec0.model_id = get_fallback_model.model_id
    · constructor
      · simp [synthesizeCore, hp, hid, isFailure]
      · intro _ hne
        exact absurd hid hne
    · cases hfb : gen get_fallback_model (some get_fallback_model.default_voice) with
      | ok b2 =>
        constructor
        · simp [synthesizeCore, hp, hid, hfb, isFailure]
        · intro _ _
          simp [synthesizeCore, hp, hid, hfb]
      | error e2 =>
        constructor
        · simp [synthesizeCore, hp, hid, hfb, isFailure]
        · intro _ _
          simp [synthesizeCore, hp, hid, hfb]

/-- C3 witness: an engine that fails for the voice-design model and
succeeds for pocket-tts — the primary failure is retried exactly once with
the fallback, which determines the outcome. -/
theorem synthesize_fallback_spec_witness :
    synthesizeCore genPocketOnly (MODELS .voiceDesign) none =
      (match genPocketOnly get_fallback_model (some get_fallback_model.default_voice) with
       | .ok b => ((.ok b : Except String (List Nat)), get_fallback_model)
       | .error e2 =>
         (.error ("Failed with fallback model: " ++ e2), get_fallback_model)) :=
  (synthesize_fallback_spec genPocketOnly (MODELS .voiceDesign) none).2
    (by decide) (by decide)

/-- C1: in auto mode (no `--model` override and no configured model id) at
the spec's end-to-end scenario (16 GB, accelerator available), the first
notify run synthesizes and caches the audio — but under the actually
selected model id, while `get` looks the text up under the literal
`"auto"`; the keys differ, so a second identical request misses the cache
and invokes synthesis again, contradicting the claimed cache hit. -/
theorem notify_auto_second_request_resynthesizes :
    (synthesizeAndPlay (AudioCache.empty 100 1000) "Ready." none none none si16
        genOkFixture 5).map Prod.snd = some true ∧
    ((synthesizeAndPlay (AudioCache.empty 100 1000) "Ready." none none none si16
        genOkFixture 5).bind
      (fun r => synthesizeAndPlay r.1 "Ready." none none none si16
        genOkFixture 6)).map Prod.snd = some true ∧
    (synthesizeAndPlay (AudioCache.empty 100 1000) "Ready." none none none si16
        genOkFixture 5).map (fun r => r.1.index.map Prod.fst)
      = some [cacheKeyContent "Ready." "alba" (MODELS .voiceDesign).model_id] ∧
    cacheKeyContent "Ready." "alba" "auto"
      ≠ cacheKeyContent "Ready." "alba" (MODELS .voiceDesign).model_id := by
  have husable : usableMemory si16 = 14 := by
    simp only [usableMemory, ratMax, si16, MEMORY_BUFFER_GB]
    rw [if_pos (by norm_num)]
    norm_num
  have hcan : canRun (MODELS .voiceDesign) si16 14 = true := by
    simp only [canRun, MODELS, si16]
    rw [if_neg (by norm_num)]
    simp
  have hsel : select si16 none SelectionMode.auto =
      { model := MODELS .voiceDesign, tier := .voiceDesign,
        reason := getSelectionReason (MODELS .voiceDesign) 14 si16,
        system_info := si16 } := by
    simp only [select]
    rw [if_neg (by simp)]
    rw [husable]
    simp only [autoSelect, QUALITY_ORDER]
    simp [hcan]
  simp only [synthesizeAndPlay, pyOrOpt, pyOrStr, pyTruthy, Bool.false_eq_true,
    if_false, hsel]
  decide

/-! ## Selection monotonicity lemmas -/

theorem canRun_eq_true_iff (spec : ModelSpec) (si : SystemInfo) (usable : ℚ) :
    canRun spec si usable = true ↔
      spec.estimated_memory_gb ≤ usable ∧
      (spec.requires_metal = true → si.metal_available = true) := by
  unfold canRun
  by_cases h1 : spec.estimated_memory_gb > usable
  · rw [if_pos h1]
    simp only [Bool.false_eq_true, false_iff]
    intro hc
    exact absurd h1 (not_lt.mpr hc.1)
  · rw [if_neg h1]
    by_cases h2 : (spec.requires_metal && !si.metal_available) = true
    · rw [if_pos h2]
      simp only [Bool.false_eq_true, false_iff]
      intro hc
      rw [Bool.and_eq_true, Bool.not_eq_true'] at h2
      have hm := hc.2 h2.1
      rw [hm] at h2
      exact absurd h2.2 (by simp)
    · rw [if_neg h2]
      constructor
      · intro _
        refine ⟨not_lt.mp h1, ?_⟩
        intro hreq
        cases hb : si.metal_available with
        | true => rfl
        | false =>
          refine absurd ?_ h2
          rw [Bool.and_eq_true, Bool.not_eq_true']
          exact ⟨hreq, hb⟩
      · intro _
        rfl

theorem canRun_mono (spec : ModelSpec) (si si' : SystemInfo) (u u' : ℚ)
    (hu : u ≤ u') (hm : si.metal_available = true → si'.metal_available = true)
    (h : canRun spec si u = true) : canRun spec si' u' = true := by
  rw [canRun_eq_true_iff] at h ⊢
  exact ⟨le_trans h.1 hu, fun hr => hm (h.2 hr)⟩

theorem usableMemory_mono (si si' : SystemInfo)
    (hmem : si.available_memory_gb ≤ si'.available_memory_gb) :
    usableMemory si ≤ usableMemory si' := by
  unfold usableMemory ratMax
  have hsub : si.available_memory_gb - MEMORY_BUFFER_GB
      ≤ si'.available_memory_gb - MEMORY_BUFFER_GB := sub_le_sub_right hmem _
  by_cases h : (0:ℚ) ≤ si.available_memory_gb - MEMORY_BUFFER_GB
  · rw [if_pos h, if_pos (le_trans h hsub)]
    exact hsub
  · rw [if_neg h]
    by_cases h' : (0:ℚ) ≤ si'.available_memory_gb - MEMORY_BUFFER_GB
    · rw [if_pos h']
      exact h'
    · rw [if_neg h']

theorem autoSelect_tier_chain (si : SystemInfo) (usable : ℚ) :
    (autoSelect si usable).tier =
      (if canRun (MODELS .voiceDesign) si usable then ModelTier.voiceDesign
       else if canRun (MODELS .spark) si usable then ModelTier.spark
       else if canRun (MODELS .sparkQuantized) si usable then ModelTier.sparkQuantized
       else ModelTier.pocket) := by
  simp only [autoSelect, QUALITY_ORDER]
  cases h1 : canRun (MODELS .voiceDesign) si usable <;>
    cases h2 : canRun (MODELS .spark) si usable <;>
      cases h3 : canRun (MODELS .sparkQuantized) si usable <;>
        cases h4 : canRun (MODELS .pocket) si usable <;>
          simp [List.find?, h1, h2, h3, h4]

/-- C7: auto-selection is monotone in resources — with at least as much
available memory and accelerator availability held or improved, the chosen
tier's rank in `QUALITY_ORDER` (0 = highest quality) never increases, i.e.
selection never regresses to a strictly lower quality tier. -/
theorem auto_select_monotone (si si' : SystemInfo)
    (hmem : si.available_memory_gb ≤ si'.available_memory_gb)
    (hacc : si.metal_available = true → si'.metal_available = true) :
    tierRank (autoSelect si' (usableMemory si')).tier ≤
      tierRank (autoSelect si (usableMemory si)).tier := by
  have hu := usableMemory_mono si si' hmem
  have hmono : ∀ t, canRun (MODELS t) si (usableMemory si) = true →
      canRun (MODELS t) si' (usableMemory si') = true :=
    fun t h => canRun_mono _ _ _ _ _ hu hacc h
  rw [autoSelect_tier_chain, autoSelect_tier_chain]
  cases h1 : canRun (MODELS .voiceDesign) si (usableMemory si)
  · cases h1' : canRun (MODELS .voiceDesign) si' (usableMemory si')
    · cases h2 : canRun (MODELS .spark) si (usableMemory si)
      · cases h2' : canRun (MODELS .spark) si' (usableMemory si')
        · cases h3 : canRun (MODELS .sparkQuantized) si (usableMemory si)
          · simp only [h1, h1', h2, h2', h3, Bool.false_eq_true, if_false]
            cases h3' : canRun (MODELS .sparkQuantized) si' (usableMemory si') <;>
              simp [tierRank]
          · have h3' := hmono _ h3
            simp [h1, h1', h2, h2', h3, h3', tierRank]
        · simp only [h1, h1', h2, h2', Bool.false_eq_true, if_false, if_true]
          cases h3 : canRun (MODELS .sparkQuantized) si (usableMemory si) <;>
            simp [tierRank]
      · have h2' := hmono _ h2
        simp [h1, h1', h2, h2', tierRank]
    · simp only [h1, h1', Bool.false_eq_true, if_false, if_true]
      simp only [tierRank]
      exact Nat.zero_le _
  · have h1' := hmono _ h1
    simp [h1, h1', tierRank]

/-- C7 witness: 5 GB versus 10 GB of available memory with the accelerator
present on both sides. -/
theorem auto_select_monotone_witness :
    tierRank (autoSelect (SystemInfo.mk 16 10 true none)
        (usableMemory (SystemInfo.mk 16 10 true none))).tier ≤
      tierRank (autoSelect (SystemInfo.mk 16 5 true none)
        (usableMemory (SystemInfo.mk 16 5 true none))).tier :=
  auto_select_monotone (SystemInfo.mk 16 5 true none) (SystemInfo.mk 16 10 true none)
    (by norm_num) (fun h => h)

/-! ## Truncation lemmas -/

theorem rfindIdx_none_spec (c : Char) (l : List Char) (h : rfindIdx c l = none) :
    c ∉ l := by
  induction l with
  | nil => simp
  | cons x xs ih =>
    simp only [rfindIdx] at h
    cases hx : rfindIdx c xs with
    | some j =>
      rw [hx] at h
      simp at h
    | none =>
      rw [hx] at h
      by_cases hxc : x = c
      · rw [if_pos hxc] at h
        simp at h
      · rw [if_neg hxc] at h
        intro hmem
        rcases List.mem_cons.mp hmem with h' | h'
        · exact hxc h'.symm
        · exact ih hx h'

theorem rfindIdx_some_spec (c : Char) (l : List Char) :
    ∀ k, rfindIdx c l = some k → l[k]? = some c ∧ c ∉ l.drop (k + 1) := by
  induction l with
  | nil =>
    intro k h
    simp [rfindIdx] at h
  | cons x xs ih =>
    intro k h
    simp only [rfindIdx] at h
    cases hx : rfindIdx c xs with
    | some j =>
      rw [hx] at h
      injection h with h
      subst h
      obtain ⟨ih1, ih2⟩ := ih j hx
      exact ⟨by simpa using ih1, by simpa using ih2⟩
    | none =>
      rw [hx] at h
      by_cases hxc : x = c
      · rw [if_pos hxc] at h
        injection h with h
        subst h
        refine ⟨by simp [hxc], ?_⟩
        simpa using rfindIdx_none_spec c xs hx
      · rw [if_neg hxc] at h
        simp at h

theorem mem_drop_of_getElem? {α : Type} (l : List α) (n j : Nat) (a : α)
    (hj : n ≤ j) (h : l[j]? = some a) : a ∈ l.drop n := by
  induction n generalizing l j with
  | zero => simpa using List.getElem?_mem h
  | succ n ih =>
    cases l with
    | nil => simp at h
    | cons x xs =>
      cases j with
      | zero => omega
      | succ j =>
        rw [List.drop_succ_cons]
        exact ih xs j (Nat.le_of_succ_le_succ hj) (by simpa using h)

/-- C8 (amended): text of length at most 200 is returned unchanged; longer
text yields at most `200 + |TRUNCATION_SUFFIX|` characters ending in the
fixed tail, cut at the last *space character* boundary at or before
position 200 whenever such a boundary exists past position 100 (half the
budget), and hard-cut at 200 otherwise.  (The code breaks only on the
space character `' '` — `rfind(" ")` — not on arbitrary whitespace; see
the counterexample.) -/
theorem limit_length_spec (t : List Char) :
    (t.length ≤ 200 → limitLength t = t) ∧
    (200 < t.length →
      (limitLength t).length ≤ 200 + TRUNCATION_SUFFIX.length ∧
      TRUNCATION_SUFFIX.IsSuffix (limitLength t) ∧
      (∀ i, 100 < i → (t.take 200)[i]? = some ' ' →
        ' ' ∉ (t.take 200).drop (i + 1) →
        limitLength t = t.take i ++ TRUNCATION_SUFFIX) ∧
      ((∀ i, (t.take 200)[i]? = some ' ' → i ≤ 100) →
        limitLength t = t.take 200 ++ TRUNCATION_SUFFIX)) := by
  constructor
  · intro hle
    simp only [limitLength, MAX_SUMMARY_LENGTH]
    rw [if_pos hle]
  · intro hgt
    have hnle : ¬ t.length ≤ 200 := by omega
    have hlen200 : (t.take 200).length = 200 := by
      rw [List.length_take]
      omega
    cases hr : rfindIdx ' ' (t.take 200) with
    | none =>
      have hnone := rfindIdx_none_spec ' ' _ hr
      have hlim : limitLength t = t.take 200 ++ TRUNCATION_SUFFIX := by
        simp only [limitLength, MAX_SUMMARY_LENGTH, hnle, if_false, hr]
        rw [if_neg (by decide)]
      refine ⟨?_, ⟨_, hlim.symm⟩, ?_, fun _ => hlim⟩
      · rw [hlim, List.length_append, hlen200]
      · intro i hi hsp _
        exact absurd (List.getElem?_mem hsp) hnone
    | some k =>
      obtain ⟨hk1, hk2⟩ := rfindIdx_some_spec ' ' _ k hr
      have hklt : k < 200 := by
        obtain ⟨hlt, _⟩ := List.getElem?_eq_some.mp hk1
        rw [hlen200] at hlt
        exact hlt
      have h200 : ((200 : Int)) / 2 = 100 := by decide
      by_cases hk100 : 100 < k
      · have hcast : ((k : Int) > (200 : Int) / 2) := by
          rw [h200]
          exact_mod_cast hk100
        have hlim : limitLength t = (t.take 200).take k ++ TRUNCATION_SUFFIX := by
          simp only [limitLength, MAX_SUMMARY_LENGTH, hnle, if_false, hr,
            Nat.cast_ofNat]
          rw [if_pos hcast]
          simp
        have htake : (t.take 200).take k = t.take k := by
          rw [List.take_take]
          congr 1
          omega
        refine ⟨?_, ⟨_, hlim.symm⟩, ?_, ?_⟩
        · rw [hlim, List.length_append, List.length_take, hlen200]
          omega
        · intro i hi hsp hlast
          have hik : i = k := by
            rcases Nat.lt_trichotomy i k with hik | hik | hik
            · exact absurd (mem_drop_of_getElem? _ _ _ _ (by omega) hk1) hlast
            · exact hik
            · exact absurd (mem_drop_of_getElem? _ _ _ _ (by omega) hsp) hk2
          rw [hlim, htake, hik]
        · intro hall
          exact absurd (hall k hk1) (by omega)
      · have hcast : ¬ ((k : Int) > (200 : Int) / 2) := by
          rw [h200]
          exact_mod_cast hk100
        have hlim : limitLength t = t.take 200 ++ TRUNCATION_SUFFIX := by
          simp only [limitLength, MAX_SUMMARY_LENGTH, hnle, if_false, hr,
            Nat.cast_ofNat]
          rw [if_neg hcast]
        refine ⟨?_, ⟨_, hlim.symm⟩, ?_, fun _ => hlim⟩
        · rw [hlim, List.length_append, hlen200]
        · intro i hi hsp _
          exact absurd (mem_drop_of_getElem? _ _ _ _ (by omega) hsp) hk2

set_option maxRecDepth 10000 in
/-- C8 witness: a 251-character text with its last space at index 150 is
cut at that boundary and suffixed. -/
theorem limit_length_spec_witness :
    limitLength tSpaceW = tSpaceW.take 150 ++ TRUNCATION_SUFFIX :=
  ((limit_length_spec tSpaceW).2 (by decide)).2.2.1 150 (by decide) (by decide)
    (by decide)

set_option maxRecDepth 10000 in
/-- C8, counterexample: a 251-character text whose only whitespace is a
newline at index 150 (past half the budget) is hard-cut at 200 — the code
only breaks on the space character, not on whitespace in general, so the
claimed word-boundary cut at the newline does not happen. -/
theorem limit_length_whitespace_counterexample :
    200 < tNewlineW.length ∧
    (tNewlineW.take 200)[150]? = some '\n' ∧
    Char.isWhitespace '\n' = true ∧
    (tNewlineW.take 200).drop 151 = List.replicate 49 'b' ∧
    Char.isWhitespace 'b' = false ∧
    limitLength tNewlineW = tNewlineW.take 200 ++ TRUNCATION_SUFFIX ∧
    tNewlineW.take 200 ++ TRUNCATION_SUFFIX
      ≠ tNewlineW.take 150 ++ TRUNCATION_SUFFIX := by decide

end AgentChime
